import Mathlib

/-!
Shallow embedding of the tiered quote resolution pipeline of
`src/fetch_data.py` (`fetch_yahoo_prices` and its two fallback adapters
`_fallback_quote` and `_finnhub_quote`).

External I/O is modelled by explicit environments: each network-facing
value the Python code reads (a dataframe cell, a `fast_info` field, a
JSON field) becomes a `RawVal` supplied by an environment record, and a
boolean flag models each `try`-block's possibility of raising.  Prices
are rationals; the float-validity filter `_safe_float` is modelled by
mapping non-finite or missing raw values to `none`.  Network-touching
adapter activity is recorded as an `Event` list so that claims about
which adapters a run invokes are statable.
-/

/-- A raw numeric value as delivered by an external source, before
`_safe_float` filtering: a finite number, a non-finite float (NaN or
infinity), or a missing / unconvertible value. -/
inductive RawVal
  | missing
  | nonfinite
  | fin (q : ℚ)
  deriving DecidableEq, Repr

/-- Model of `_safe_float` (src/fetch_data.py lines 159-167): return a float if
the value is finite, otherwise `None`.  A missing value (`float(None)`
raises, caught inside `_safe_float`) also yields `None`. -/
def safe_float : RawVal → Option ℚ
  | RawVal.fin q => some q
  | _ => none

/-- Python's truthiness-based `a or b` on optional floats: `None` and
`0.0` are falsy, so a missing or zero left operand yields the right
operand (line 208 of `_fallback_quote`). -/
def pyOr (a b : Option ℚ) : Option ℚ :=
  match a with
  | some v => if v = 0 then b else some v
  | none => b

/-- Python's `round(x, 2)`: round to two decimal places (modelled as
round-half-up via the computable `Rat.floor`; ties at the third decimal,
where Python rounds half to even, are immaterial to the claims). -/
def round2 (q : ℚ) : ℚ := ((Rat.floor (q * 100 + 1 / 2) : ℤ) : ℚ) / 100

/-- Test `listBegins n h`: the list `h` starts with the list `n`. -/
def listBegins : List Char → List Char → Bool
  | [], _ => true
  | _ :: _, [] => false
  | a :: as, b :: bs => a == b && listBegins as bs

/-- Test `hasSub n h`: Python's substring test `n in h` on character lists. -/
def hasSub (needle : List Char) : List Char → Bool
  | [] => needle.isEmpty
  | c :: cs => listBegins needle (c :: cs) || hasSub needle cs

/-- Network-touching adapter activity, recorded so that claims about
which fallback adapters a run invokes are statable.
`fallbackCall s` is an invocation of the single-symbol yfinance fallback
(`_fallback_quote`); `finnhubRequest s` is an actual HTTP request issued
by the secondary Finnhub adapter. -/
inductive Event
  | fallbackCall (s : String)
  | finnhubRequest (s : String)
  deriving DecidableEq, Repr

/-- Environment of one `_fallback_quote` call: the `fast_info` fields,
whether the 5-day history is present and non-empty, and the history's
`Close` column (whose absence while the history is non-empty makes
`len(close_series)` raise). `raises` models any other exception in the
`try` block (e.g. `yf.Ticker` itself failing). -/
structure FallbackEnv where
  raises : Bool
  lastPrice : RawVal
  regularMarketPrice : RawVal
  previousClose : RawVal
  histPresent : Bool
  closeCol : Option (List RawVal)
  deriving DecidableEq, Repr

/-- Lines 206-218 of `_fallback_quote`: select the raw price and the raw
reference (previous close).  `none` as the overall result models an
uncaught exception inside the `try` block (the whole call then returns
`(None, None)`); otherwise the pair `(price, prev_close)` as the code
holds them at line 220. -/
def fallbackSel (e : FallbackEnv) : Option (Option ℚ × Option ℚ) :=
  if e.raises then none
  else
    let price0 := pyOr (safe_float e.lastPrice) (safe_float e.regularMarketPrice)
    let prev0 := safe_float e.previousClose
    if price0.isSome then some (price0, prev0)
    else if e.histPresent then
      match e.closeCol with
      | none => none
      | some cs =>
          let price1 := if 0 < cs.length then safe_float (cs.getLast?.getD RawVal.missing)
                        else price0
          let prev1 := if 2 ≤ cs.length then safe_float (cs.getD (cs.length - 2) RawVal.missing)
                       else prev0
          some (price1, prev1)
    else some (price0, prev0)

/-- The shared result-construction pattern of both adapters
(lines 194-198 and 223-227): `change_percent` is `0.0` unless the
reference is present and non-zero, in which case it is the relative
change; price and change are rounded to two decimals on return. -/
def mkQuote (p : ℚ) (prev : Option ℚ) : ℚ × ℚ :=
  let change :=
    match prev with
    | some pc => if pc ≠ 0 then ((p - pc) / pc) * 100 else 0
    | none => 0
  (round2 p, round2 change)

/-- Model of `_fallback_quote` (lines 203-229): single-symbol yfinance fallback.
Returns the `(price, change_percent)` pair together with the recorded
network activity (the call itself always touches the network). -/
def fallback_quote (symbol : String) (e : FallbackEnv) :
    (Option ℚ × Option ℚ) × List Event :=
  (match fallbackSel e with
   | none => (none, none)
   | some pr =>
     match pr.1 with
     | none => (none, none)
     | some p =>
       let q := mkQuote p pr.2
       (some q.1, some q.2),
   [Event.fallbackCall symbol])

/-- Environment of one `_finnhub_quote` call: whether `FINNHUB_API_KEY`
is present in the process environment, whether the HTTP request raises,
and the `c` (current) and `pc` (previous close) JSON fields. -/
structure FinnhubEnv where
  apiKeyPresent : Bool
  raises : Bool
  c : RawVal
  pc : RawVal
  deriving DecidableEq, Repr

/-- The suffix / index markers of line 179: a symbol containing any of
them is skipped by the Finnhub adapter. -/
def finnhubMarkers : List String := [".PS", ".L", ".DE", ".PA", ".T", ".HK", "^"]

/-- Line 179: `any(x in symbol for x in [...])`. -/
def finnhubIncompatible (symbol : String) : Bool :=
  finnhubMarkers.any (fun m => hasSub m.data symbol.data)

/-- Model of `_finnhub_quote` (lines 170-200): secondary Finnhub adapter.  A
missing API key or an incompatible symbol returns `(None, None)` before
any request is issued; a raised request, a missing current price, or a
current price of exactly zero also yield `(None, None)`. -/
def finnhub_quote (symbol : String) (e : FinnhubEnv) :
    (Option ℚ × Option ℚ) × List Event :=
  if e.apiKeyPresent = false then ((none, none), [])
  else if finnhubIncompatible symbol then ((none, none), [])
  else if e.raises then ((none, none), [Event.finnhubRequest symbol])
  else
    match safe_float e.c with
    | none => ((none, none), [Event.finnhubRequest symbol])
    | some cur =>
      if cur = 0 then ((none, none), [Event.finnhubRequest symbol])
      else
        let q := mkQuote cur (safe_float e.pc)
        ((some q.1, some q.2), [Event.finnhubRequest symbol])

/-- One record of the input manifest: the ticker symbol and the optional
`logo_url` carried along (`item.get('logo_url')`; the display name plays
no role in `fetch_yahoo_prices`). -/
structure ManifestItem where
  symbol : String
  logo_url : Option String
  deriving DecidableEq, Repr

/-- One entry of the output `prices` list (lines 333-338 / 348-353). -/
structure PriceEntry where
  symbol : String
  price : ℚ
  change_percent : ℚ
  logo_url : Option String
  deriving DecidableEq, Repr

/-- The environment a symbol sees inside one successfully downloaded
batch: the last `Close` and `Open` cells its sub-dataframe provides
(`none` models a missing / empty dataframe, a missing column, or an
empty series), and the environments of its two fallback adapters. -/
structure SymEnv where
  bulkClose : Option RawVal
  bulkOpen : Option RawVal
  fb : FallbackEnv
  fh : FinnhubEnv

/-- The external world of one `fetch_yahoo_prices` run: whether the bulk
`yf.download` call of batch `i` raises, and the per-symbol data. -/
structure Env where
  bulkRaises : ℕ → Bool
  sym : String → SymEnv

/-- The logo dictionary of line 285,
`{item['symbol']: item.get('logo_url') for item in manifest}`, built
left to right with later records overwriting earlier ones (modelled by
giving the tail of the list precedence); the outer `Option` is presence
of the key in the dictionary. -/
def logoDict : List ManifestItem → String → Option (Option String)
  | [], _ => none
  | it :: rest, s =>
    match logoDict rest s with
    | some v => some v
    | none => if s = it.symbol then some it.logo_url else none

/-- Lookup `logo_lookup.get(symbol)` (lines 337 / 352): the stored value, or
`None` when the symbol is not a key. -/
def logoGet (manifest : List ManifestItem) (s : String) : Option String :=
  (logoDict manifest s).getD none

/-- Lines 298-357, the per-symbol resolution cascade inside a
successfully downloaded batch: use the bulk close when `_safe_float`
accepts it (falling back only for the change when the open is missing
or zero), otherwise try `_fallback_quote` then `_finnhub_quote`, and
fail the symbol when all are exhausted.  Returns the produced price
entry (`none` means the symbol joins `failed`) and the recorded adapter
activity. -/
def processSymbol (se : SymEnv) (logo : Option String) (s : String) :
    Option PriceEntry × List Event :=
  let close_price := se.bulkClose.bind safe_float
  let open_price := se.bulkOpen.bind safe_float
  match close_price with
  | none =>
      let r1 := fallback_quote s se.fb
      match r1.1.1 with
      | some p =>
          (some { symbol := s, price := p, change_percent := r1.1.2.getD 0,
                  logo_url := logo }, r1.2)
      | none =>
          let r2 := finnhub_quote s se.fh
          match r2.1.1 with
          | some p =>
              (some { symbol := s, price := p, change_percent := r2.1.2.getD 0,
                      logo_url := logo }, r1.2 ++ r2.2)
          | none => (none, r1.2 ++ r2.2)
  | some cp =>
      match open_price with
      | some op =>
          if op ≠ 0 then
            (some { symbol := s, price := round2 cp,
                    change_percent := round2 (((cp - op) / op) * 100),
                    logo_url := logo }, [])
          else
            let r1 := fallback_quote s se.fb
            (some { symbol := s, price := round2 cp,
                    change_percent := round2 (r1.1.2.getD 0),
                    logo_url := logo }, r1.2)
      | none =>
          let r1 := fallback_quote s se.fb
          (some { symbol := s, price := round2 cp,
                  change_percent := round2 (r1.1.2.getD 0),
                  logo_url := logo }, r1.2)

/-- The inner `for symbol in batch` loop (lines 298-357): accumulate
each symbol's outcome into the `prices` / `failed` lists in input
order. -/
def processBatch (env : Env) (manifest : List ManifestItem) :
    List String → List PriceEntry × List String × List Event
  | [] => ([], [], [])
  | s :: rest =>
    let r := processSymbol (env.sym s) (logoGet manifest s) s
    let t := processBatch env manifest rest
    match r.1 with
    | some e => (e :: t.1, t.2.1, r.2 ++ t.2.2)
    | none => (t.1, s :: t.2.1, r.2 ++ t.2.2)

/-- The outer batch loop (lines 290-364): batch `i` whose bulk download
raises sends its whole symbol list to `failed` (line 363) and the run
continues; otherwise the batch is processed symbol by symbol. -/
def runBatches (env : Env) (manifest : List ManifestItem) :
    ℕ → List (List String) → List PriceEntry × List String × List Event
  | _, [] => ([], [], [])
  | i, b :: bs =>
    let t := runBatches env manifest (i + 1) bs
    if env.bulkRaises i then (t.1, b ++ t.2.1, t.2.2)
    else
      let r := processBatch env manifest b
      (r.1 ++ t.1, r.2.1 ++ t.2.1, r.2.2 ++ t.2.2)

/-- Model of the `range(0, len(tickers_list), batch_size)` slicing: contiguous chunks
of at most `bs` symbols.  The first argument is fuel (the list length
bounds the number of chunks when `0 < bs`). -/
def chunksAux (bs : ℕ) : ℕ → List String → List (List String)
  | 0, _ => []
  | _ + 1, [] => []
  | n + 1, l => l.take bs :: chunksAux bs n (l.drop bs)

/-- The batch partition of the ticker list. -/
def chunks (bs : ℕ) (l : List String) : List (List String) :=
  chunksAux bs l.length l

/-- Model of `fetch_yahoo_prices` (lines 278-374): extract the ticker list and
logo dictionary from the manifest, process it in batches of
`batch_size`, and return the accumulated `prices` and `failed` lists
(the pair serialized to JSON at line 370) plus the recorded adapter
activity. -/
def fetch_yahoo_prices (env : Env) (manifest : List ManifestItem)
    (batch_size : ℕ) : List PriceEntry × List String × List Event :=
  let tickers_list := manifest.map (fun it => it.symbol)
  runBatches env manifest 0 (chunks batch_size tickers_list)

/-- A fallback environment in which the yfinance call itself raises:
`_fallback_quote` then returns `(None, None)`. -/
def fbDefault : FallbackEnv :=
  { raises := true, lastPrice := RawVal.missing, regularMarketPrice := RawVal.missing,
    previousClose := RawVal.missing, histPresent := false, closeCol := none }

/-- A Finnhub environment with no API key configured. -/
def fhDefault : FinnhubEnv :=
  { apiKeyPresent := false, raises := false, c := RawVal.missing, pc := RawVal.missing }

/-- A symbol environment in which every source is empty or failing. -/
def seDefault : SymEnv :=
  { bulkClose := none, bulkOpen := none, fb := fbDefault, fh := fhDefault }

/-- A world in which every bulk `yf.download` call raises. -/
def envAllRaise : Env := { bulkRaises := fun _ => true, sym := fun _ => seDefault }

/-- A world in which the bulk download returns a close of exactly `0`
and an open of `5` for every symbol. -/
def envZeroClose : Env :=
  { bulkRaises := fun _ => false,
    sym := fun _ =>
      { seDefault with bulkClose := some (RawVal.fin 0), bulkOpen := some (RawVal.fin 5) } }

/-- The function `Rat.floor` is the floor of the `FloorRing` instance on `ℚ`. -/
theorem ratFloor_eq_intFloor (q : ℚ) : (Rat.floor q : ℤ) = ⌊q⌋ :=
  (Rat.floor_def' q).trans Rat.floor_def.symm

/-- Rounding an integer to two decimal places returns it unchanged. -/
theorem round2_intCast (n : ℤ) : round2 ((n : ℤ) : ℚ) = ((n : ℤ) : ℚ) := by
  have h0 : ((n : ℚ) * 100 + 1 / 2) = ((100 * n : ℤ) : ℚ) + 1 / 2 := by push_cast; ring
  have h1 : ⌊((100 * n : ℤ) : ℚ) + 1 / 2⌋ = 100 * n + ⌊(1 / 2 : ℚ)⌋ := Int.floor_int_add _ _
  have h2 : ⌊(1 / 2 : ℚ)⌋ = 0 := by
    rw [Int.floor_eq_iff]
    norm_num
  rw [round2, ratFloor_eq_intFloor, h0, h1, h2]
  push_cast
  ring

/-- Rounding zero gives zero: `round2 0 = 0`. -/
theorem round2_zero : round2 0 = 0 := by
  have := round2_intCast 0
  simpa using this

/-- A produced price entry carries the processed symbol and the logo
value passed in. -/
theorem processSymbol_fst_some {se : SymEnv} {lg : Option String} {s : String}
    {e : PriceEntry} (h : (processSymbol se lg s).1 = some e) :
    e.symbol = s ∧ e.logo_url = lg := by
  simp only [processSymbol] at h
  repeat' split at h
  all_goals
    first
      | exact Option.noConfusion h
      | (cases Option.some.inj h; exact ⟨rfl, rfl⟩)

/-- Rearrangement helper: pulling a block across an append is a
permutation. -/
theorem perm_shift {α : Type} (x b y : List α) :
    (x ++ (b ++ y)).Perm (b ++ (x ++ y)) := by
  simpa [List.append_assoc] using
    ((List.perm_append_comm : (x ++ b).Perm (b ++ x))).append_right y

/-- Rearrangement helper: the four-block interchange is a permutation. -/
theorem perm_interchange {α : Type} (a b c d : List α) :
    ((a ++ c) ++ (b ++ d)).Perm ((a ++ b) ++ (c ++ d)) := by
  simpa [List.append_assoc] using (perm_shift c b d).append_left a

/-- One batch's price symbols and failures are together a permutation of
the batch. -/
theorem processBatch_perm (env : Env) (manifest : List ManifestItem) :
    ∀ b : List String,
      ((processBatch env manifest b).1.map (fun e => e.symbol) ++
        (processBatch env manifest b).2.1).Perm b := by
  intro b
  induction b with
  | nil => simp [processBatch]
  | cons s rest ih =>
      simp only [processBatch]
      split
      next e heq =>
        obtain ⟨hsym, _⟩ := processSymbol_fst_some heq
        simpa [hsym] using ih.cons s
      next heq =>
        refine (List.perm_middle).trans (ih.cons s)

/-- One batch's price symbols and failures each preserve the batch's
order. -/
theorem processBatch_sublist (env : Env) (manifest : List ManifestItem) :
    ∀ b : List String,
      ((processBatch env manifest b).1.map (fun e => e.symbol)).Sublist b ∧
        (processBatch env manifest b).2.1.Sublist b := by
  intro b
  induction b with
  | nil => simp [processBatch]
  | cons s rest ih =>
      simp only [processBatch]
      split
      next e heq =>
        obtain ⟨hsym, _⟩ := processSymbol_fst_some heq
        constructor
        · simpa [hsym] using ih.1.cons₂ s
        · exact ih.2.cons s
      next heq =>
        constructor
        · exact ih.1.cons s
        · exact ih.2.cons₂ s

/-- Across all batches, price symbols and failures are together a
permutation of the concatenated batches. -/
theorem runBatches_perm (env : Env) (manifest : List ManifestItem) :
    ∀ (L : List (List String)) (i : ℕ),
      ((runBatches env manifest i L).1.map (fun e => e.symbol) ++
        (runBatches env manifest i L).2.1).Perm L.flatten := by
  intro L
  induction L with
  | nil => intro i; simp [runBatches]
  | cons b rest ih =>
      intro i
      simp only [runBatches, List.flatten_cons]
      split
      · exact (perm_shift _ b _).trans ((ih (i + 1)).append_left b)
      · simp only [List.map_append]
        exact (perm_interchange _ _ _ _).trans
          ((processBatch_perm env manifest b).append (ih (i + 1)))

/-- Across all batches, price symbols and failures each preserve the
order of the concatenated batches. -/
theorem runBatches_sublist (env : Env) (manifest : List ManifestItem) :
    ∀ (L : List (List String)) (i : ℕ),
      ((runBatches env manifest i L).1.map (fun e => e.symbol)).Sublist L.flatten ∧
        (runBatches env manifest i L).2.1.Sublist L.flatten := by
  intro L
  induction L with
  | nil => intro i; simp [runBatches]
  | cons b rest ih =>
      intro i
      simp only [runBatches, List.flatten_cons]
      split
      · constructor
        · exact ((ih (i + 1)).1).trans (List.sublist_append_right b _)
        · exact (List.Sublist.refl b).append ((ih (i + 1)).2)
      · constructor
        · simp only [List.map_append]
          exact ((processBatch_sublist env manifest b).1).append ((ih (i + 1)).1)
        · exact ((processBatch_sublist env manifest b).2).append ((ih (i + 1)).2)

/-- Decomposition of the batch loop across an append: a run over
`L1 ++ L2` is the run over `L1` followed componentwise by the run over
`L2` starting at the shifted batch index.  This lets any single batch's
contribution be isolated inside an arbitrary run. -/
theorem runBatches_append (env : Env) (manifest : List ManifestItem) :
    ∀ (L1 L2 : List (List String)) (i : ℕ),
      runBatches env manifest i (L1 ++ L2) =
        ((runBatches env manifest i L1).1 ++
           (runBatches env manifest (i + L1.length) L2).1,
         (runBatches env manifest i L1).2.1 ++
           (runBatches env manifest (i + L1.length) L2).2.1,
         (runBatches env manifest i L1).2.2 ++
           (runBatches env manifest (i + L1.length) L2).2.2) := by
  intro L1
  induction L1 with
  | nil =>
      intro L2 i
      simp [runBatches]
  | cons b bs ih =>
      intro L2 i
      have hidx : i + (b :: bs).length = (i + 1) + bs.length := by
        simp only [List.length_cons]
        omega
      rw [List.cons_append]
      simp only [runBatches]
      rw [ih L2 (i + 1), hidx]
      by_cases hr : env.bulkRaises i = true <;>
        simp [hr, List.append_assoc]

/-- Concatenating the batch partition recovers the ticker list. -/
theorem chunksAux_join (bs : ℕ) (hbs : 0 < bs) :
    ∀ (n : ℕ) (l : List String), l.length ≤ n → (chunksAux bs n l).flatten = l := by
  intro n
  induction n with
  | zero =>
      intro l hl
      rw [List.length_eq_zero.mp (Nat.le_zero.mp hl)]
      rfl
  | succ n ih =>
      intro l hl
      cases l with
      | nil => rfl
      | cons x xs =>
          have hlen : ((x :: xs).drop bs).length ≤ n := by
            simp only [List.length_drop, List.length_cons] at hl ⊢
            omega
          simp only [chunksAux, List.flatten_cons]
          rw [ih ((x :: xs).drop bs) hlen]
          exact List.take_append_drop bs (x :: xs)

/-- Concatenating the batch partition recovers the ticker list. -/
theorem chunks_join (bs : ℕ) (hbs : 0 < bs) (l : List String) :
    (chunks bs l).flatten = l :=
  chunksAux_join bs hbs l.length l le_rfl

/-- A symbol that is no record's key is absent from the logo
dictionary. -/
theorem logoDict_eq_none {s : String} :
    ∀ {l : List ManifestItem}, (∀ it ∈ l, it.symbol ≠ s) → logoDict l s = none := by
  intro l
  induction l with
  | nil => intro h; rfl
  | cons it rest ih =>
      intro h
      simp only [logoDict]
      rw [ih (fun it2 hm => h it2 (List.mem_cons_of_mem it hm))]
      rw [if_neg (fun hs => h it (List.mem_cons_self it rest) hs.symm)]

/-- The record whose symbol is repeated by no later record owns the
dictionary entry for that symbol. -/
theorem logoDict_last {it : ManifestItem} {post : List ManifestItem}
    (hpost : ∀ it2 ∈ post, it2.symbol ≠ it.symbol) :
    ∀ pre : List ManifestItem,
      logoDict (pre ++ it :: post) it.symbol = some it.logo_url := by
  intro pre
  induction pre with
  | nil =>
      simp only [List.nil_append, logoDict]
      rw [logoDict_eq_none hpost]
      simp
  | cons x pre ih =>
      simp only [List.cons_append, logoDict, List.append_eq]
      rw [ih]

/-- Every price entry a batch produces carries the logo looked up for
its own symbol. -/
theorem processBatch_logo (env : Env) (manifest : List ManifestItem) :
    ∀ (b : List String) (e : PriceEntry), e ∈ (processBatch env manifest b).1 →
      e.logo_url = logoGet manifest e.symbol := by
  intro b
  induction b with
  | nil => intro e he; simp [processBatch] at he
  | cons s rest ih =>
      intro e he
      simp only [processBatch] at he
      split at he
      next e0 heq =>
        rcases List.mem_cons.mp he with rfl | hmem
        · obtain ⟨hsym, hlogo⟩ := processSymbol_fst_some heq
          rw [hlogo, hsym]
        · exact ih e hmem
      next heq => exact ih e he

/-- Every price entry a run produces carries the logo looked up for its
own symbol. -/
theorem runBatches_logo (env : Env) (manifest : List ManifestItem) :
    ∀ (L : List (List String)) (i : ℕ) (e : PriceEntry),
      e ∈ (runBatches env manifest i L).1 →
      e.logo_url = logoGet manifest e.symbol := by
  intro L
  induction L with
  | nil => intro i e he; simp [runBatches] at he
  | cons b rest ih =>
      intro i e he
      simp only [runBatches] at he
      split at he
      · exact ih (i + 1) e he
      · rcases List.mem_append.mp he with hmem | hmem
        · exact processBatch_logo env manifest b e hmem
        · exact ih (i + 1) e hmem

/-- For a positive batch size, the run's price symbols and failures are
together a permutation of the manifest's symbols. -/
theorem fetch_partition (env : Env) (manifest : List ManifestItem) (bs : ℕ)
    (hbs : 0 < bs) :
    ((fetch_yahoo_prices env manifest bs).1.map (fun e => e.symbol) ++
      (fetch_yahoo_prices env manifest bs).2.1).Perm
      (manifest.map (fun it => it.symbol)) := by
  have h := runBatches_perm env manifest
    (chunks bs (manifest.map (fun it => it.symbol))) 0
  rw [chunks_join bs hbs] at h
  exact h

/-- Evaluating the all-raising world on a one-symbol manifest: the
symbol goes straight to `failed` and no adapter activity occurs. -/
theorem fetchAllRaise_eval :
    fetch_yahoo_prices envAllRaise [{ symbol := "AAA", logo_url := none }] 50 =
      ([], ["AAA"], []) := rfl

/-- Claim C1: for every input manifest whose symbols are pairwise
distinct and a positive batch size, each input symbol lands in exactly
one of `prices` / `failed` (their symbols together are a duplicate-free
permutation of the input symbols), so the two output lengths sum to the
input length. -/
theorem claim1_partition (env : Env) (manifest : List ManifestItem) (bs : ℕ)
    (hbs : 0 < bs) (hnd : (manifest.map (fun it => it.symbol)).Nodup) :
    ((fetch_yahoo_prices env manifest bs).1.map (fun e => e.symbol) ++
      (fetch_yahoo_prices env manifest bs).2.1).Perm
      (manifest.map (fun it => it.symbol)) ∧
    ((fetch_yahoo_prices env manifest bs).1.map (fun e => e.symbol) ++
      (fetch_yahoo_prices env manifest bs).2.1).Nodup ∧
    (fetch_yahoo_prices env manifest bs).1.length +
      (fetch_yahoo_prices env manifest bs).2.1.length = manifest.length := by
  have hp := fetch_partition env manifest bs hbs
  refine ⟨hp, hp.nodup_iff.mpr hnd, ?_⟩
  have hl := hp.length_eq
  simpa using hl

/-- Witness for C1 at a concrete world and one-symbol manifest. -/
theorem claim1_partition_witness :
    ((fetch_yahoo_prices envAllRaise [{ symbol := "AAA", logo_url := none }] 50).1.map
        (fun e => e.symbol) ++
      (fetch_yahoo_prices envAllRaise [{ symbol := "AAA", logo_url := none }] 50).2.1).Perm
      (([{ symbol := "AAA", logo_url := none }] : List ManifestItem).map (fun it => it.symbol)) ∧
    ((fetch_yahoo_prices envAllRaise [{ symbol := "AAA", logo_url := none }] 50).1.map
        (fun e => e.symbol) ++
      (fetch_yahoo_prices envAllRaise [{ symbol := "AAA", logo_url := none }] 50).2.1).Nodup ∧
    (fetch_yahoo_prices envAllRaise [{ symbol := "AAA", logo_url := none }] 50).1.length +
      (fetch_yahoo_prices envAllRaise [{ symbol := "AAA", logo_url := none }] 50).2.1.length =
      ([{ symbol := "AAA", logo_url := none }] : List ManifestItem).length :=
  claim1_partition envAllRaise [{ symbol := "AAA", logo_url := none }] 50
    (by norm_num) (by simp)

/-- Claim C2 counterexample: in the world where the bulk download of
every batch raises, the sole symbol is appended to `failed` while the
recorded adapter activity stays empty — no single-symbol fallback call
and no secondary-source request is ever attempted, refuting the claim
that every symbol of an erroring batch is retried through the cascade's
steps 2-4 before being marked failed. -/
theorem claim2_counterexample :
    (fetch_yahoo_prices envAllRaise [{ symbol := "AAA", logo_url := none }] 50).2.1 =
      ["AAA"] ∧
    Event.fallbackCall "AAA" ∉
      (fetch_yahoo_prices envAllRaise [{ symbol := "AAA", logo_url := none }] 50).2.2 ∧
    Event.finnhubRequest "AAA" ∉
      (fetch_yahoo_prices envAllRaise [{ symbol := "AAA", logo_url := none }] 50).2.2 := by
  have h : (fetch_yahoo_prices envAllRaise
      [{ symbol := "AAA", logo_url := none }] 50).2.2 = [] := rfl
  exact ⟨rfl, by rw [h]; exact List.not_mem_nil _, by rw [h]; exact List.not_mem_nil _⟩

/-- Claim C2 as amended: in an arbitrary run, a batch whose bulk
download raises does not abort the run — the whole run equals the
preceding batches' results, then the raising batch contributing nothing
to `prices`, its complete symbol list (in order) to `failed`, and
nothing to the recorded adapter activity (so neither the single-symbol
fallback nor the secondary adapter is invoked for its symbols), and
then the remaining batches processed as usual from the next index. -/
theorem claim2_amended (env : Env) (manifest : List ManifestItem) (bs : ℕ)
    (pre post : List (List String)) (b : List String)
    (hchunks : chunks bs (manifest.map (fun it => it.symbol)) = pre ++ b :: post)
    (hraise : env.bulkRaises pre.length = true) :
    fetch_yahoo_prices env manifest bs =
      ((runBatches env manifest 0 pre).1 ++
         (runBatches env manifest (pre.length + 1) post).1,
       (runBatches env manifest 0 pre).2.1 ++
         (b ++ (runBatches env manifest (pre.length + 1) post).2.1),
       (runBatches env manifest 0 pre).2.2 ++
         (runBatches env manifest (pre.length + 1) post).2.2) := by
  show runBatches env manifest 0
      (chunks bs (manifest.map (fun it => it.symbol))) = _
  rw [hchunks, runBatches_append env manifest pre (b :: post) 0]
  rw [Nat.zero_add]
  simp only [runBatches]
  rw [if_pos hraise]

/-- A world that raises exactly on batch `0`; later batches download
successfully (their symbols then run the per-symbol cascade). -/
def envMixed : Env := { bulkRaises := fun i => i == 0, sym := fun _ => seDefault }

/-- Witness for the amended C2 at a mixed concrete run: with batch size
`1`, batch 0 (`"AAA"`) raises and goes to `failed` with no adapter
activity while batch 1 (`"BBB"`) is still processed normally. -/
theorem claim2_amended_witness :
    fetch_yahoo_prices envMixed
        [{ symbol := "AAA", logo_url := none },
         { symbol := "BBB", logo_url := none }] 1 =
      ((runBatches envMixed
          [{ symbol := "AAA", logo_url := none },
           { symbol := "BBB", logo_url := none }] 0 []).1 ++
         (runBatches envMixed
            [{ symbol := "AAA", logo_url := none },
             { symbol := "BBB", logo_url := none }] (List.length ([] : List (List String)) + 1)
            [["BBB"]]).1,
       (runBatches envMixed
          [{ symbol := "AAA", logo_url := none },
           { symbol := "BBB", logo_url := none }] 0 []).2.1 ++
         (["AAA"] ++
           (runBatches envMixed
              [{ symbol := "AAA", logo_url := none },
               { symbol := "BBB", logo_url := none }] (List.length ([] : List (List String)) + 1)
              [["BBB"]]).2.1),
       (runBatches envMixed
          [{ symbol := "AAA", logo_url := none },
           { symbol := "BBB", logo_url := none }] 0 []).2.2 ++
         (runBatches envMixed
            [{ symbol := "AAA", logo_url := none },
             { symbol := "BBB", logo_url := none }] (List.length ([] : List (List String)) + 1)
            [["BBB"]]).2.2) :=
  claim2_amended envMixed
    [{ symbol := "AAA", logo_url := none }, { symbol := "BBB", logo_url := none }]
    1 [] [["BBB"]] ["AAA"] rfl rfl

/-- Claim C7: with no API key in the environment, the secondary adapter
deterministically returns the unavailable result with no network
activity, whatever the rest of its environment holds. -/
theorem claim7_no_key (s : String) (e : FinnhubEnv)
    (h : e.apiKeyPresent = false) :
    finnhub_quote s e = ((none, none), []) := by
  simp [finnhub_quote, h]

/-- Witness for C7 at a concrete symbol and environment. -/
theorem claim7_no_key_witness :
    finnhub_quote "AAPL" fhDefault = ((none, none), []) :=
  claim7_no_key "AAPL" fhDefault rfl

/-- Claim C8: the empty manifest is a no-op producing empty `prices`
and `failed` (the embedding is a total function, so no run raises), and
for every manifest the two outputs' lengths sum to the input length —
the run always yields a complete result. -/
theorem claim8_total (env : Env) (bs : ℕ) (hbs : 0 < bs) :
    fetch_yahoo_prices env [] bs = ([], [], []) ∧
    ∀ manifest : List ManifestItem,
      (fetch_yahoo_prices env manifest bs).1.length +
        (fetch_yahoo_prices env manifest bs).2.1.length = manifest.length := by
  refine ⟨rfl, fun manifest => ?_⟩
  have hl := (fetch_partition env manifest bs hbs).length_eq
  simpa using hl

/-- Witness for C8 at a concrete world. -/
theorem claim8_total_witness :
    fetch_yahoo_prices envAllRaise [] 50 = ([], [], []) ∧
    ∀ manifest : List ManifestItem,
      (fetch_yahoo_prices envAllRaise manifest 50).1.length +
        (fetch_yahoo_prices envAllRaise manifest 50).2.1.length = manifest.length :=
  claim8_total envAllRaise 50 (by norm_num)

/-- Claim C9: the `prices` symbols and the `failed` list are each
sublists of the input symbol sequence — batches are processed in order
and symbols within a batch in input order, so relative input order is
preserved on both paths. -/
theorem claim9_order (env : Env) (manifest : List ManifestItem) (bs : ℕ)
    (hbs : 0 < bs) :
    ((fetch_yahoo_prices env manifest bs).1.map (fun e => e.symbol)).Sublist
      (manifest.map (fun it => it.symbol)) ∧
    (fetch_yahoo_prices env manifest bs).2.1.Sublist
      (manifest.map (fun it => it.symbol)) := by
  have h := runBatches_sublist env manifest
    (chunks bs (manifest.map (fun it => it.symbol))) 0
  rw [chunks_join bs hbs] at h
  exact h

/-- Witness for C9 at a concrete world and one-symbol manifest. -/
theorem claim9_order_witness :
    ((fetch_yahoo_prices envAllRaise [{ symbol := "AAA", logo_url := none }] 50).1.map
        (fun e => e.symbol)).Sublist
      (([{ symbol := "AAA", logo_url := none }] : List ManifestItem).map (fun it => it.symbol)) ∧
    (fetch_yahoo_prices envAllRaise [{ symbol := "AAA", logo_url := none }] 50).2.1.Sublist
      (([{ symbol := "AAA", logo_url := none }] : List ManifestItem).map (fun it => it.symbol)) :=
  claim9_order envAllRaise [{ symbol := "AAA", logo_url := none }] 50 (by norm_num)

/-- A symbol environment whose bulk download yields close `10` and
open `8`. -/
def seBulkTen : SymEnv :=
  { seDefault with bulkClose := some (RawVal.fin 10), bulkOpen := some (RawVal.fin 8) }

/-- Claim C4: when the bulk download provides a finite non-zero close
and a finite non-zero open, the result is built from those two values
alone and the recorded adapter activity is empty — neither fallback
adapter is invoked for that symbol. -/
theorem claim4_bulk_hit (se : SymEnv) (lg : Option String) (s : String)
    (c o : ℚ) (hc : se.bulkClose = some (RawVal.fin c)) (_hc0 : c ≠ 0)
    (ho : se.bulkOpen = some (RawVal.fin o)) (ho0 : o ≠ 0) :
    processSymbol se lg s =
      (some { symbol := s, price := round2 c,
              change_percent := round2 ((c - o) / o * 100), logo_url := lg },
       []) := by
  simp [processSymbol, hc, ho, safe_float, ho0]

/-- Witness for C4 at concrete close `10` and open `8`. -/
theorem claim4_bulk_hit_witness :
    processSymbol seBulkTen none "AAA" =
      (some { symbol := "AAA", price := round2 10,
              change_percent := round2 ((10 - 8) / 8 * 100), logo_url := none },
       []) :=
  claim4_bulk_hit seBulkTen none "AAA" 10 8 rfl (by norm_num) rfl (by norm_num)

/-- A symbol environment in which the single-symbol fallback fails and
the secondary adapter has a key but its request raises, so a request is
recorded. -/
def seRequest : SymEnv :=
  { seDefault with
    fh := { apiKeyPresent := true, raises := true,
            c := RawVal.missing, pc := RawVal.missing } }

/-- Claim C6: a symbol containing one of the exchange-suffix or index
markers makes the secondary adapter return absent with no network
request, whatever its environment; and a secondary-source request can
only be recorded for a symbol whose single-symbol fallback returned no
price — and then the fallback call is recorded too, so the secondary
adapter runs only after the fallback failed. -/
theorem claim6_secondary_guard (s1 : String) (e1 : FinnhubEnv)
    (h1 : finnhubIncompatible s1 = true)
    (se : SymEnv) (lg : Option String) (s2 : String)
    (h2 : Event.finnhubRequest s2 ∈ (processSymbol se lg s2).2) :
    finnhub_quote s1 e1 = ((none, none), []) ∧
    (fallback_quote s2 se.fb).1.1 = none ∧
    Event.fallbackCall s2 ∈ (processSymbol se lg s2).2 := by
  have ha : finnhub_quote s1 e1 = ((none, none), []) := by
    rcases hk : e1.apiKeyPresent <;> simp [finnhub_quote, hk, h1]
  refine ⟨ha, ?_⟩
  rcases hc : se.bulkClose.bind safe_float with _ | cp
  · rcases hf : (fallback_quote s2 se.fb).1.1 with _ | p
    · refine ⟨rfl, ?_⟩
      simp only [processSymbol, hc, hf]
      rcases hg : (finnhub_quote s2 se.fh).1.1 with _ | q <;>
        simp [hg, fallback_quote]
    · exfalso
      simp only [processSymbol, hc, hf] at h2
      simp [fallback_quote] at h2
  · exfalso
    simp only [processSymbol, hc] at h2
    rcases ho : se.bulkOpen.bind safe_float with _ | op
    · rw [ho] at h2
      simp [fallback_quote] at h2
    · rw [ho] at h2
      by_cases h0 : op = 0
      · simp [h0, fallback_quote] at h2
      · simp [h0, fallback_quote] at h2

/-- Witness for C6: an index-form symbol with a keyed environment, and
a world whose fallback fails before the recorded secondary request. -/
theorem claim6_secondary_guard_witness :
    finnhub_quote "^GSPC" fhDefault = ((none, none), []) ∧
    (fallback_quote "AAA" seRequest.fb).1.1 = none ∧
    Event.fallbackCall "AAA" ∈ (processSymbol seRequest none "AAA").2 :=
  claim6_secondary_guard "^GSPC" fhDefault (by decide) seRequest none "AAA" (by decide)

/-- A fallback environment answering price `10` with previous close
`8` from `fast_info`. -/
def fbQuote108 : FallbackEnv :=
  { raises := false, lastPrice := RawVal.fin 10, regularMarketPrice := RawVal.missing,
    previousClose := RawVal.fin 8, histPresent := false, closeCol := none }

/-- A Finnhub environment answering current `10` with previous close
`8`. -/
def fhQuote108 : FinnhubEnv :=
  { apiKeyPresent := true, raises := false, c := RawVal.fin 10, pc := RawVal.fin 8 }

/-- Claim C5: whenever either adapter returns a price, the emitted
`change_percent` is exactly `0` when the chosen reference (the selected
previous close) is absent or zero, and otherwise is
`(price - reference) / reference * 100` rounded to two decimals; the
zero branch emits the constant `0`, so no division by a zero reference
occurs. -/
theorem claim5_change_rule (s1 : String) (e1 : FallbackEnv) (p : ℚ)
    (prev : Option ℚ) (hsel : fallbackSel e1 = some (some p, prev))
    (s2 : String) (e2 : FinnhubEnv) (c : ℚ)
    (hkey : e2.apiKeyPresent = true) (hcomp : finnhubIncompatible s2 = false)
    (hraise : e2.raises = false) (hc : safe_float e2.c = some c) (hc0 : c ≠ 0) :
    ((prev = none ∨ prev = some 0) →
        (fallback_quote s1 e1).1 = (some (round2 p), some 0)) ∧
    (∀ pc : ℚ, prev = some pc → pc ≠ 0 →
        (fallback_quote s1 e1).1 =
          (some (round2 p), some (round2 ((p - pc) / pc * 100)))) ∧
    ((safe_float e2.pc = none ∨ safe_float e2.pc = some 0) →
        (finnhub_quote s2 e2).1 = (some (round2 c), some 0)) ∧
    (∀ pc : ℚ, safe_float e2.pc = some pc → pc ≠ 0 →
        (finnhub_quote s2 e2).1 =
          (some (round2 c), some (round2 ((c - pc) / pc * 100)))) := by
  refine ⟨?_, ?_, ?_, ?_⟩
  · rintro (rfl | rfl) <;> simp [fallback_quote, hsel, mkQuote, round2_zero]
  · rintro pc rfl h0
    simp [fallback_quote, hsel, mkQuote, h0]
  · intro hpc
    rcases hpc with hpc | hpc <;>
      simp [finnhub_quote, hkey, hcomp, hraise, hc, hc0, hpc, mkQuote, round2_zero]
  · rintro pc hpc h0
    simp [finnhub_quote, hkey, hcomp, hraise, hc, hc0, hpc, mkQuote, h0]

/-- Witness for C5 with both adapters answering `10` against reference
`8`. -/
theorem claim5_change_rule_witness :
    ((some (8 : ℚ) = none ∨ some (8 : ℚ) = some 0) →
        (fallback_quote "AAA" fbQuote108).1 = (some (round2 10), some 0)) ∧
    (∀ pc : ℚ, some (8 : ℚ) = some pc → pc ≠ 0 →
        (fallback_quote "AAA" fbQuote108).1 =
          (some (round2 10), some (round2 ((10 - pc) / pc * 100)))) ∧
    ((safe_float fhQuote108.pc = none ∨ safe_float fhQuote108.pc = some 0) →
        (finnhub_quote "AAPL" fhQuote108).1 = (some (round2 10), some 0)) ∧
    (∀ pc : ℚ, safe_float fhQuote108.pc = some pc → pc ≠ 0 →
        (finnhub_quote "AAPL" fhQuote108).1 =
          (some (round2 10), some (round2 ((10 - pc) / pc * 100)))) :=
  claim5_change_rule "AAA" fbQuote108 10 (some 8) (by decide)
    "AAPL" fhQuote108 10 rfl (by decide) rfl rfl (by norm_num)

/-- Evaluating the zero-close world on a one-symbol manifest: the bulk
close of exactly `0` is accepted, the entry is built from it, and no
adapter activity occurs. -/
theorem fetchZeroClose_eval :
    fetch_yahoo_prices envZeroClose [{ symbol := "AAA", logo_url := none }] 50 =
      ([{ symbol := "AAA", price := round2 0,
          change_percent := round2 ((0 - 5) / 5 * 100), logo_url := none }],
       [], []) := rfl

/-- Claim C3 counterexample: a bulk close price of exactly `0` (with
open `5`) does not trigger any fallback — the symbol is resolved with
price `0` in `prices`, `failed` stays empty, and no adapter is invoked,
refuting the claim that a zero price from every cascade step is treated
as invalid and never emitted. -/
theorem claim3_counterexample :
    (fetch_yahoo_prices envZeroClose [{ symbol := "AAA", logo_url := none }] 50).1 =
      [{ symbol := "AAA", price := 0, change_percent := -100, logo_url := none }] ∧
    (fetch_yahoo_prices envZeroClose [{ symbol := "AAA", logo_url := none }] 50).2.1 =
      [] ∧
    (fetch_yahoo_prices envZeroClose [{ symbol := "AAA", logo_url := none }] 50).2.2 =
      [] := by
  have h2 : round2 ((0 - 5) / 5 * 100 : ℚ) = -100 := by
    have ha : ((0 : ℚ) - 5) / 5 * 100 = ((-100 : ℤ) : ℚ) := by norm_num
    rw [ha, round2_intCast]
    norm_num
  refine ⟨?_, rfl, rfl⟩
  rw [show (fetch_yahoo_prices envZeroClose
      [{ symbol := "AAA", logo_url := none }] 50).1 =
      [{ symbol := "AAA", price := round2 0,
         change_percent := round2 ((0 - 5) / 5 * 100), logo_url := none }] from rfl]
  rw [round2_zero, h2]

/-- Claim C3 as amended: only the secondary (Finnhub) adapter treats a
price of exactly zero as invalid (it answers absent); the bulk path
accepts a zero close and emits it as the entry's price, and the
single-symbol fallback likewise returns a zero price when its source
reports one. -/
theorem claim3_amended (s1 : String) (e1 : FinnhubEnv)
    (h1 : safe_float e1.c = some 0)
    (se : SymEnv) (lg : Option String) (s2 : String)
    (h2 : se.bulkClose = some (RawVal.fin 0))
    (s3 : String) (e3 : FallbackEnv) (h3 : e3.raises = false)
    (h4 : e3.lastPrice = RawVal.fin 0) (h5 : e3.regularMarketPrice = RawVal.fin 0) :
    (finnhub_quote s1 e1).1 = (none, none) ∧
    Option.map (fun e => e.price) (processSymbol se lg s2).1 = some 0 ∧
    (fallback_quote s3 e3).1.1 = some 0 := by
  refine ⟨?_, ?_, ?_⟩
  · rcases hk : e1.apiKeyPresent <;> rcases hinc : finnhubIncompatible s1 <;>
      rcases hr : e1.raises <;> simp [finnhub_quote, hk, hinc, hr, h1]
  · have hclose : se.bulkClose.bind safe_float = some 0 := by rw [h2]; rfl
    simp only [processSymbol, hclose]
    rcases ho : se.bulkOpen.bind safe_float with _ | op
    · simp [ho, round2_zero]
    · by_cases h0 : op = 0 <;> simp [ho, h0, round2_zero]
  · simp [fallback_quote, fallbackSel, h3, h4, h5, pyOr, safe_float, mkQuote,
      round2_zero]

/-- A fallback environment whose `fast_info` reports a zero last price
and a zero regular market price. -/
def fbZero : FallbackEnv :=
  { raises := false, lastPrice := RawVal.fin 0, regularMarketPrice := RawVal.fin 0,
    previousClose := RawVal.missing, histPresent := false, closeCol := none }

/-- A Finnhub environment whose current price is exactly zero. -/
def fhZero : FinnhubEnv :=
  { apiKeyPresent := true, raises := false, c := RawVal.fin 0, pc := RawVal.fin 8 }

/-- Witness for the amended C3 at concrete zero-price environments. -/
theorem claim3_amended_witness :
    (finnhub_quote "AAPL" fhZero).1 = (none, none) ∧
    Option.map (fun e => e.price)
      (processSymbol (envZeroClose.sym "AAA") none "AAA").1 = some 0 ∧
    (fallback_quote "AAA" fbZero).1.1 = some 0 :=
  claim3_amended "AAPL" fhZero (by decide)
    (envZeroClose.sym "AAA") none "AAA" (by decide)
    "AAA" fbZero rfl rfl rfl

/-- Claim C10: the logo dictionary is built left to right with later
manifest records overwriting earlier ones, so the entry for a symbol
comes from its last record; a symbol with no record looks up to absent
rather than an error; and every price entry of a run carries the logo
looked up for its own symbol. -/
theorem claim10_logo (pre post : List ManifestItem) (it : ManifestItem)
    (hpost : ∀ it2 ∈ post, it2.symbol ≠ it.symbol)
    (manifest2 : List ManifestItem) (s2 : String)
    (habs : ∀ it2 ∈ manifest2, it2.symbol ≠ s2)
    (env : Env) (manifest3 : List ManifestItem) (bs : ℕ) (e : PriceEntry)
    (he : e ∈ (fetch_yahoo_prices env manifest3 bs).1) :
    logoGet (pre ++ it :: post) it.symbol = it.logo_url ∧
    logoGet manifest2 s2 = none ∧
    e.logo_url = logoGet manifest3 e.symbol := by
  refine ⟨?_, ?_, ?_⟩
  · rw [logoGet, logoDict_last hpost pre]
    rfl
  · rw [logoGet, logoDict_eq_none habs]
    rfl
  · exact runBatches_logo env manifest3
      (chunks bs (manifest3.map (fun it2 : ManifestItem => it2.symbol))) 0 e he

/-- Witness for C10: a duplicated symbol whose last record wins, a
missing symbol, and a concrete run's sole price entry. -/
theorem claim10_logo_witness :
    logoGet ([{ symbol := "AAA", logo_url := some "old" }] ++
        { symbol := "AAA", logo_url := some "new" } :: []) "AAA" = some "new" ∧
    logoGet ([{ symbol := "AAA", logo_url := some "old" }] : List ManifestItem) "BBB" =
      none ∧
    ({ symbol := "AAA", price := round2 0,
       change_percent := round2 ((0 - 5) / 5 * 100),
       logo_url := none } : PriceEntry).logo_url =
      logoGet [{ symbol := "AAA", logo_url := none }]
        ({ symbol := "AAA", price := round2 0,
           change_percent := round2 ((0 - 5) / 5 * 100),
           logo_url := none } : PriceEntry).symbol :=
  claim10_logo [{ symbol := "AAA", logo_url := some "old" }] []
    { symbol := "AAA", logo_url := some "new" } (by simp)
    [{ symbol := "AAA", logo_url := some "old" }] "BBB" (by simp)
    envZeroClose [{ symbol := "AAA", logo_url := none }] 50
    { symbol := "AAA", price := round2 0,
      change_percent := round2 ((0 - 5) / 5 * 100), logo_url := none }
    (by rw [fetchZeroClose_eval]; exact List.mem_singleton_self _)
